import Mathlib

/-
Shallow embedding of the dual-provider replicated store implemented in
`src/database.py` (class `DatabaseBalancer`).  Network and database
nondeterminism (whether a given `cursor.execute`, fetch, reconnect or
cache statement raises, and which classification `_is_connection_error`
gives the raised exception) is supplied by explicit "world" records; the
mutable object state (`provider_a_active`, `provider_b_active`, the local
SQLite cache, the replicated tables) is threaded explicitly.
-/

set_option maxHeartbeats 1000000

namespace PhotoDB

/-- Provider identifier: `A` is Nhost, `B` is Neon. -/
inductive PId
| A
| B
deriving DecidableEq, Fintype

/-- Connection-manager view of one provider: whether its connection URL is
configured in the environment and whether it is currently marked active
(`provider_a_active` / `provider_b_active`). -/
structure ProvSt where
  url : Bool
  active : Bool
deriving DecidableEq

/-- Local SQLite cache as seen by `_handle_total_failure`: whether
`cache_cursor` exists, whether the `SELECT MAX(sl_no)` watermark query
raises, and the `sl_no` values stored in the cached `media_library`. -/
structure CacheSt where
  present : Bool
  wmQueryFails : Bool
  mediaSl : List Nat
deriving DecidableEq

/-- The balancer state relevant to `execute_query` and
`_handle_total_failure`. -/
structure St where
  a : ProvSt
  b : ProvSt
  cache : CacheSt
deriving DecidableEq

def maxNat (l : List Nat) : Nat := l.foldr max 0

/-- Result of `SELECT MAX(sl_no) FROM media_library` on the cache:
`NULL` (here `none`) on an empty table. -/
def cacheMaxSl (l : List Nat) : Option Nat :=
  if l.isEmpty then none else some (maxNat l)

/-- The `last_sl_no` value interpolated into the critical alert:
`unknown` renders as the string `"Unknown"`. -/
inductive Watermark
| unknown
| known (v : Option Nat)
deriving DecidableEq

/-- Watermark computed by `_handle_total_failure`: read from the cache when
`cache_cursor` exists; if the query raises, the bare `except` keeps
`"Unknown"`. -/
def watermark (s : St) : Watermark :=
  if s.cache.present then
    (if s.cache.wmQueryFails then Watermark.unknown
     else Watermark.known (cacheMaxSl s.cache.mediaSl))
  else Watermark.unknown

/-- Observable side effects: a `_handle_single_failure` alert for one
provider, the `_handle_total_failure` critical alert (carrying the cache
watermark it interpolates into the mail body), and (read path) the fact
that a statement was executed against a given provider. -/
inductive Event
| singleAlert (p : PId)
| criticalAlert (wm : Watermark)
| tryExec (p : PId)
deriving DecidableEq

/-- Outcome of one attempt of the write loop's `try` block: the block runs
`cursor()/execute`, sets `success_x = True`, then fetches.  `execFail`
means `cursor()` or `execute` raised (before `success_x` was set);
`fetchFail` means the fetch raised (after `success_x` was set).  The flag
records whether `_is_connection_error` classifies the exception as
transient. -/
inductive StepRes
| ok
| execFail (transient : Bool)
| fetchFail (transient : Bool)
deriving DecidableEq, Fintype

/-- World for one call of the write branch of `execute_query`: the outcome
of attempt `n` of each provider's loop, and whether a `pg8000` reconnect
would succeed for each provider. -/
structure WWorld where
  stepA : Nat → StepRes
  stepB : Nat → StepRes
  reconA : Bool
  reconB : Bool

/-- Model of `_reconnect_provider p`: it returns `True` only when `p`'s URL
is configured and the fresh connect succeeds (world flag `r`); on success
it (re)sets the provider active, on a connect failure it marks it
inactive. -/
def reconnectOk (p : ProvSt) (r : Bool) : Bool := p.url && r

/-- Outcome of the write branch of `execute_query` as seen by its caller:
a normal return, the raised mirrored-write `Exception`, or process
termination via `sys.exit` in `_handle_total_failure`. -/
inductive WOutcome
| returned
| raised
| exited (code : Nat)
deriving DecidableEq

/-- Whether the attempt's `cursor.execute` call succeeded — `success_x` is
assigned directly after `execute`, before the fetch, so a fetch failure
still leaves `success_x = True`. -/
def execOk : StepRes → Bool
| StepRes.ok => true
| StepRes.execFail _ => false
| StepRes.fetchFail _ => true

def transientOf : StepRes → Bool
| StepRes.ok => false
| StepRes.execFail t => t
| StepRes.fetchFail t => t

/-- One provider's `for attempt in range(2)` loop in the write branch of
`execute_query` (lines 172–208): only entered when the provider is marked
active; a transient first-attempt error triggers one inline reconnect and,
if the reconnect succeeds, one retry; any other failure (or a retry
failure) marks the provider inactive and emits a single-provider alert.
Returns (`success_x`, new provider state, emitted alerts). -/
def writeProviderLoop (pid : PId) (step : Nat → StepRes) (rec : Bool) (p : ProvSt) :
    Bool × ProvSt × List Event :=
  if p.active then
    match step 0 with
    | StepRes.ok => (true, p, [])
    | StepRes.execFail t =>
      if t && reconnectOk p rec then
        match step 1 with
        | StepRes.ok => (true, p, [])
        | StepRes.execFail _ => (false, { p with active := false }, [Event.singleAlert pid])
        | StepRes.fetchFail _ => (true, { p with active := false }, [Event.singleAlert pid])
      else
        (false, { p with active := false }, [Event.singleAlert pid])
    | StepRes.fetchFail t =>
      if t && reconnectOk p rec then
        match step 1 with
        | StepRes.ok => (true, p, [])
        | StepRes.execFail _ => (true, { p with active := false }, [Event.singleAlert pid])
        | StepRes.fetchFail _ => (true, { p with active := false }, [Event.singleAlert pid])
      else
        (true, { p with active := false }, [Event.singleAlert pid])
  else (false, p, [])

/-- The write statement was applied on the provider: some attempt that the
loop actually performed had a successful `cursor.execute`.  (The retry is
performed exactly when the first attempt's error is transient and the
inline reconnect succeeds.) -/
def appliedOnProv (step : Nat → StepRes) (rec : Bool) (p : ProvSt) : Bool :=
  p.active &&
    (execOk (step 0) || (transientOf (step 0) && reconnectOk p rec && execOk (step 1)))

/-- The write branch of `execute_query` (`is_write=True`, lines 166–216):
run both provider loops (A then B), escalate to `_handle_total_failure`
when no provider is left active, raise the mirrored-write exception when a
still-active provider did not succeed, otherwise return normally. -/
def execute_query_write (s : St) (w : WWorld) : WOutcome × St × List Event :=
  let ra := writeProviderLoop PId.A w.stepA w.reconA s.a
  let rb := writeProviderLoop PId.B w.stepB w.reconB s.b
  let s' : St := { s with a := ra.2.1, b := rb.2.1 }
  if !ra.2.1.active && !rb.2.1.active then
    (WOutcome.exited 1, s', ra.2.2 ++ rb.2.2 ++ [Event.criticalAlert (watermark s')])
  else if (ra.2.1.active && !ra.1) || (rb.2.1.active && !rb.1) then
    (WOutcome.raised, s', ra.2.2 ++ rb.2.2)
  else (WOutcome.returned, s', ra.2.2 ++ rb.2.2)

/-- Outcome of a single read attempt's `try` block (execute plus fetch). -/
inductive RStep
| ok
| fail (transient : Bool)
deriving DecidableEq

/-- World for the read branch of `execute_query`: `pick d t` drives
`random.choice` at recursion depth `d`, attempt `t` (taken modulo the
length of the current option list); `exec d t` is the outcome of the
statement executed there; `recon d p` says whether a reconnect of `p` at
depth `d` would succeed. -/
structure RWorld where
  pick : Nat → Nat → Nat
  exec : Nat → Nat → RStep
  recon : Nat → PId → Bool

/-- The `options` list built at the top of each read attempt (A before B,
as in the source). -/
def activeOptions (s : St) : List PId :=
  (if s.a.active then [PId.A] else []) ++ (if s.b.active then [PId.B] else [])

def provOf (s : St) : PId → ProvSt
| PId.A => s.a
| PId.B => s.b

def setInactive (s : St) : PId → St
| PId.A => { s with a := { s.a with active := false } }
| PId.B => { s with b := { s.b with active := false } }

/-- Outcome of the read branch: normal return, process exit via
`_handle_total_failure`, or fuel exhaustion of the model (shown below to
be unreachable from the top-level entry point). -/
inductive ROutcome
| returned
| exited (code : Nat)
| fuelOut
deriving DecidableEq

/-- The read branch of `execute_query` (lines 218–250): per attempt rebuild
`options` from the active flags, escalate to total failure when it is
empty, pick a provider at random and execute; on a transient error with a
successful reconnect re-enter the loop (which re-picks at random); on any
other failure mark the chosen provider inactive, alert, and recursively
re-invoke the whole read.  `fuel` bounds the self-recursion (each
recursive call happens after one active provider was marked inactive);
`d` is the recursion depth used to index the world. -/
def readAux (w : RWorld) : Nat → Nat → St → ROutcome × List Event
| 0, _, _ => (ROutcome.fuelOut, [])
| Nat.succ fuel, d, s =>
  let opts := activeOptions s
  if opts.isEmpty then (ROutcome.exited 1, [Event.criticalAlert (watermark s)])
  else
    let p := opts.getD (w.pick d 0 % opts.length) PId.A
    match w.exec d 0 with
    | RStep.ok => (ROutcome.returned, [Event.tryExec p])
    | RStep.fail t =>
      if t && reconnectOk (provOf s p) (w.recon d p) then
        let q := opts.getD (w.pick d 1 % opts.length) PId.A
        match w.exec d 1 with
        | RStep.ok => (ROutcome.returned, [Event.tryExec p, Event.tryExec q])
        | RStep.fail _ =>
          let rest := readAux w fuel (d+1) (setInactive s q)
          (rest.1, Event.tryExec p :: Event.tryExec q :: Event.singleAlert q :: rest.2)
      else
        let rest := readAux w fuel (d+1) (setInactive s p)
        (rest.1, Event.tryExec p :: Event.singleAlert p :: rest.2)

/-- Top-level read: with two providers the recursion depth is at most 2, so
fuel 3 suffices (`readAux_no_fuelOut` below). -/
def execute_query_read (s : St) (w : RWorld) : ROutcome × List Event :=
  readAux w 3 0 s

/-- `update_trip_album_id` (lines 593–604): the mirrored write and the
local-cache update run inside `try/except Exception`, which catches the
mirrored-write exception and any cache error and only logs them — but a
`SystemExit` raised by `_handle_total_failure` is not an `Exception` and
propagates.  `cacheFails` says whether the cache `UPDATE`/`commit` raises
(its effect, being caught, does not change the outcome). -/
def update_trip_album_id (s : St) (w : WWorld) (cacheFails : Bool) : WOutcome × St :=
  let r := execute_query_write s w
  match r.1 with
  | WOutcome.exited c => (WOutcome.exited c, r.2.1)
  | WOutcome.raised => (WOutcome.returned, r.2.1)
  | WOutcome.returned =>
    if s.cache.present && cacheFails then (WOutcome.returned, r.2.1)
    else (WOutcome.returned, r.2.1)

/-- A row of a replicated table: its provider-assigned `sl_no` and its
business payload (collapsed to one opaque value). -/
structure Row where
  sl : Nat
  val : Nat
deriving DecidableEq

def maxSl (t : List Row) : Nat := t.foldr (fun r m => max r.sl m) 0

/-- Ascending insertion by `sl_no`, used to model the `ORDER BY sl_no ASC`
of the leader query. -/
def insertAsc (r : Row) : List Row → List Row
| [] => [r]
| x :: xs => if r.sl ≤ x.sl then r :: x :: xs else x :: insertAsc r xs

def sortBySl (t : List Row) : List Row := t.foldr insertAsc []

/-- Rows the leader holds beyond the lagger's max, in ascending `sl_no`
order (`SELECT * FROM t WHERE sl_no > %s ORDER BY sl_no ASC`). -/
def missingRows (leader : List Row) (lagMax : Nat) : List Row :=
  sortBySl (leader.filter (fun r => decide (lagMax < r.sl)))

/-- `REPLACE INTO` the cache projection keyed on the `sl_no` primary key of
the cached `media_library`: replace the row with the same key, else
append. -/
def upsertCache (c : List Row) (r : Row) : List Row :=
  if c.any (fun x => decide (x.sl = r.sl)) then
    c.map (fun x => if x.sl = r.sl then r else x)
  else c ++ [r]

/-- Failure world for one `_reconcile_table` call: whether the `MAX(sl_no)`
query on each provider raises, whether the leader fetch raises, whether a
lagger `INSERT` raises (after `k` rows were already inserted — each
insert auto-commits), and whether the cache loop raises (its uncommitted
statements are then not persisted). -/
structure TWorld where
  maxAFails : Bool
  maxBFails : Bool
  fetchFails : Bool
  insFail : Option Nat
  cacheFail : Bool

/-- Log-level observables of one `_reconcile_table` call. -/
inductive REvent
| inSync
| mismatch
| recovered (count : Nat)
| recFailed
deriving DecidableEq

/-- Result of one `_reconcile_table` call: both provider tables, the cache
projection, the rows actually inserted into the lagging provider, and the
log events. -/
structure RecRes where
  a : List Row
  b : List Row
  cache : List Row
  moved : List Row
  events : List REvent
deriving DecidableEq

/-- `_reconcile_table` (lines 280–358): a failed `MAX(sl_no)` read leaves
that side's default `max = 0`; equal values short-circuit; otherwise the
larger side leads, the rows above the lagger's max are fetched in
ascending order and inserted into the lagger (and `REPLACE`d into the
cache when `cache_cursor` exists); any exception inside the transfer is
caught and logged, leaving the rows inserted before it (each
auto-committed) in place. -/
def reconcile_table (A B cache : List Row) (cachePresent : Bool) (w : TWorld) : RecRes :=
  let max_a := if w.maxAFails then 0 else maxSl A
  let max_b := if w.maxBFails then 0 else maxSl B
  if max_a = max_b then ⟨A, B, cache, [], [REvent.inSync]⟩
  else
    let aLeads := decide (max_b < max_a)
    let leadRows := if aLeads then A else B
    let lagRows := if aLeads then B else A
    let lagMax := if aLeads then max_b else max_a
    if w.fetchFails then ⟨A, B, cache, [], [REvent.mismatch, REvent.recFailed]⟩
    else
      let missing := missingRows leadRows lagMax
      if missing.isEmpty then ⟨A, B, cache, [], [REvent.mismatch]⟩
      else
        match w.insFail with
        | some k =>
          let lag' := lagRows ++ missing.take k
          ⟨if aLeads then A else lag', if aLeads then lag' else B, cache,
            missing.take k, [REvent.mismatch, REvent.recFailed]⟩
        | none =>
          let lag' := lagRows ++ missing
          if cachePresent && w.cacheFail then
            ⟨if aLeads then A else lag', if aLeads then lag' else B, cache,
              missing, [REvent.mismatch, REvent.recFailed]⟩
          else
            ⟨if aLeads then A else lag', if aLeads then lag' else B,
              if cachePresent then missing.foldl upsertCache cache else cache,
              missing, [REvent.mismatch, REvent.recovered missing.length]⟩

/-- Full balancer state for `reconcile_databases`: the two replicated
tables on each provider, the cache projections, and each provider's
auto-increment sequence value per table. -/
structure DBSt where
  activeA : Bool
  activeB : Bool
  mediaA : List Row
  mediaB : List Row
  tripsA : List Row
  tripsB : List Row
  cachePresent : Bool
  cacheMedia : List Row
  cacheTrips : List Row
  seqMediaA : Nat
  seqMediaB : Nat
  seqTripsA : Nat
  seqTripsB : Nat
deriving DecidableEq

/-- `SELECT COALESCE(MAX(sl_no), 1)`: the `setval` target for a table's
sequence. -/
def seqTarget (rows : List Row) : Nat :=
  if rows.isEmpty then 1 else maxSl rows

/-- `_sync_sequences` (lines 252–278): for each active provider, set both
tables' sequences to `COALESCE(MAX(sl_no), 1)`; an exception in one
provider's block is caught and logged (that provider's sequences are left
as they were). -/
def sync_sequences (s : DBSt) (failA failB : Bool) : DBSt :=
  let s1 :=
    if s.activeA && !failA then
      { s with seqMediaA := seqTarget s.mediaA, seqTripsA := seqTarget s.tripsA }
    else s
  if s1.activeB && !failB then
    { s1 with seqMediaB := seqTarget s1.mediaB, seqTripsB := seqTarget s1.tripsB }
  else s1

/-- `reconcile_databases` (lines 360–371): when either provider is offline,
skip the per-table comparison and only resync sequences; otherwise
reconcile `media_library`, then `trips_config`, then resync sequences.
Returns the new state together with the rows inserted into a lagging
provider for each table. -/
def reconcile_databases (s : DBSt) (wm wt : TWorld) (sfA sfB : Bool) :
    DBSt × List Row × List Row :=
  if !(s.activeA && s.activeB) then (sync_sequences s sfA sfB, [], [])
  else
    let rm := reconcile_table s.mediaA s.mediaB s.cacheMedia s.cachePresent wm
    let s1 := { s with mediaA := rm.a, mediaB := rm.b, cacheMedia := rm.cache }
    let rt := reconcile_table s1.tripsA s1.tripsB s1.cacheTrips s1.cachePresent wt
    let s2 := { s1 with tripsA := rt.a, tripsB := rt.b, cacheTrips := rt.cache }
    (sync_sequences s2 sfA sfB, rm.moved, rt.moved)

/-- The failure-free world for one `_reconcile_table` call. -/
def goodT : TWorld := ⟨false, false, false, none, false⟩

/-- Ascending run of rows `a, a+1, ..., a+k-1` with payload `f`. -/
def rowsFrom (f : Nat → Nat) : Nat → Nat → List Row
| _, 0 => []
| a, Nat.succ k => ⟨a, f a⟩ :: rowsFrom f (a + 1) k

/-- A provider table holding exactly the consecutive rows `sl_no = 1..n`. -/
def seqRows (f : Nat → Nat) (n : Nat) : List Row := rowsFrom f 1 n

end PhotoDB

namespace PhotoDB

/-- Filenames are modelled as their character lists (`str` in the source). -/
abbrev FName := List Char

def lowerName (s : FName) : FName := s.map Char.toLower

/-- Python `s.endswith(suffix)`. -/
def endsWithL (l s : FName) : Bool :=
  decide (s.length ≤ l.length) && decide (l.drop (l.length - s.length) = s)

/-- Python `s[:-n]`. -/
def dropRightN (s : FName) (n : Nat) : FName := s.take (s.length - n)

def mkStr (s : String) : FName := s.data

/-- The `filenames_to_check` list built by `file_exists_by_name`
(lines 495–501): the queried name plus, for a `.jpg`/`.jpeg`-suffixed
name (suffix tested on the lowercased name, slice taken on the original),
the two spellings of the aliased extension. -/
def candidateNames (f : FName) : List FName :=
  let low := lowerName f
  if endsWithL low (mkStr ".jpg") then
    [f, dropRightN f 4 ++ mkStr ".jpeg", dropRightN f 4 ++ mkStr ".JPEG"]
  else if endsWithL low (mkStr ".jpeg") then
    [f, dropRightN f 5 ++ mkStr ".jpg", dropRightN f 5 ++ mkStr ".JPG"]
  else [f]

/-- `SELECT 1 FROM media_library WHERE LOWER(filename) = LOWER(?) LIMIT 1`
returned a row. -/
def sqlLowerMatch (tbl : List FName) (c : FName) : Bool :=
  tbl.any (fun r => decide (lowerName r = lowerName c))

/-- Store state for `file_exists_by_name`: the cache handle and failure
flag, the filenames in the cached `media_library`, and the filenames in
the providers' `media_library` as the load-balanced read would see them. -/
structure FStore where
  cachePresent : Bool
  cacheQueryFails : Bool
  cacheNames : List FName
  provNames : List FName

/-- `file_exists_by_name` (lines 493–517): when the cache handle exists and
its query does not raise, the candidate loop alone decides the result;
only otherwise does the provider-side loop run (the second component
records whether it did). -/
def file_exists_by_name (st : FStore) (f : FName) : Bool × Bool :=
  let cands := candidateNames f
  if st.cachePresent && !st.cacheQueryFails then
    (cands.any (sqlLowerMatch st.cacheNames), false)
  else
    (cands.any (sqlLowerMatch st.provNames), true)

/-- The table `file_exists_by_name` actually consults. -/
def consultedNames (st : FStore) : List FName :=
  if st.cachePresent && !st.cacheQueryFails then st.cacheNames else st.provNames

/-- Canonical form of a filename under the lookup's fuzzy rule: lowercase,
with a `.jpeg` suffix collapsed to `.jpg` (the `.jpg` branch is tested
first, as in the source). -/
def normName (f : FName) : FName :=
  let low := lowerName f
  if endsWithL low (mkStr ".jpg") then low
  else if endsWithL low (mkStr ".jpeg") then dropRightN low 5 ++ mkStr ".jpg"
  else low

end PhotoDB

namespace PhotoDB

/-! Write-path lemmas. -/

theorem writeProviderLoop_fst (pid : PId) (step : Nat → StepRes) (rec : Bool) (p : ProvSt) :
    (writeProviderLoop pid step rec p).1 = appliedOnProv step rec p := by
  obtain ⟨u, a⟩ := p
  unfold writeProviderLoop appliedOnProv
  generalize step 0 = r0
  generalize step 1 = r1
  revert u a rec
  revert r0 r1
  revert pid
  decide

theorem writeProviderLoop_active_imp (pid : PId) (step : Nat → StepRes) (rec : Bool) (p : ProvSt) :
    (writeProviderLoop pid step rec p).2.1.active = true →
    (writeProviderLoop pid step rec p).1 = true := by
  obtain ⟨u, a⟩ := p
  unfold writeProviderLoop
  generalize step 0 = r0
  generalize step 1 = r1
  revert u a rec
  revert r0 r1
  revert pid
  decide

theorem writeProviderLoop_failed (pid : PId) (step : Nat → StepRes) (rec : Bool) (p : ProvSt) :
    p.active = true → (writeProviderLoop pid step rec p).1 = false →
    (writeProviderLoop pid step rec p).2.1.active = false ∧
      (writeProviderLoop pid step rec p).2.2 = [Event.singleAlert pid] := by
  obtain ⟨u, a⟩ := p
  unfold writeProviderLoop
  generalize step 0 = r0
  generalize step 1 = r1
  revert u a rec
  revert r0 r1
  revert pid
  decide

/-- Characterization of `execute_query_write` in terms of the two provider
loops' results. -/
theorem execute_query_write_cases (s : St) (w : WWorld)
    (sA : Bool) (pA : ProvSt) (eA : List Event)
    (sB : Bool) (pB : ProvSt) (eB : List Event)
    (hA : writeProviderLoop PId.A w.stepA w.reconA s.a = (sA, pA, eA))
    (hB : writeProviderLoop PId.B w.stepB w.reconB s.b = (sB, pB, eB)) :
    execute_query_write s w =
      ((if !pA.active && !pB.active then WOutcome.exited 1
        else if (pA.active && !sA) || (pB.active && !sB) then WOutcome.raised
        else WOutcome.returned),
       { s with a := pA, b := pB },
       (if !pA.active && !pB.active then
          eA ++ eB ++ [Event.criticalAlert (watermark { s with a := pA, b := pB })]
        else eA ++ eB)) := by
  unfold execute_query_write
  rw [hA, hB]
  by_cases h1 : (!pA.active && !pB.active) = true
  · simp [h1]
  · by_cases h2 : ((pA.active && !sA) || (pB.active && !sB)) = true
    · simp [h1, h2]
    · simp [h1, h2]

/-- The mirrored-write exception at the end of the write path is in fact
dead code: a provider whose loop left it marked active always succeeded,
so the raising branch can never trigger. -/
theorem execute_query_write_never_raises (s : St) (w : WWorld) :
    (execute_query_write s w).1 ≠ WOutcome.raised := by
  rcases hA : writeProviderLoop PId.A w.stepA w.reconA s.a with ⟨sA, pA, eA⟩
  rcases hB : writeProviderLoop PId.B w.stepB w.reconB s.b with ⟨sB, pB, eB⟩
  have hcases := execute_query_write_cases s w sA pA eA sB pB eB hA hB
  have hAi := writeProviderLoop_active_imp PId.A w.stepA w.reconA s.a
  have hBi := writeProviderLoop_active_imp PId.B w.stepB w.reconB s.b
  rw [hA] at hAi
  rw [hB] at hBi
  rw [hcases]
  dsimp only
  dsimp only at hAi hBi
  clear hcases hA hB
  revert hAi hBi
  generalize pA.active = xa
  generalize pB.active = xb
  revert xa xb sA sB
  decide

/-- C2: the write branch raises the mirrored-write exception if and only
if some provider that is still marked active after the attempts did not
get the statement applied; otherwise it exits (total failure) or returns
normally. -/
theorem c2_mirrored_write_raise_iff (s : St) (w : WWorld) :
    ((execute_query_write s w).1 = WOutcome.raised ↔
      (((execute_query_write s w).2.1.a.active = true ∧
          appliedOnProv w.stepA w.reconA s.a = false) ∨
        ((execute_query_write s w).2.1.b.active = true ∧
          appliedOnProv w.stepB w.reconB s.b = false))) ∧
    ((execute_query_write s w).1 ≠ WOutcome.raised →
      (execute_query_write s w).1 = WOutcome.exited 1 ∨
        (execute_query_write s w).1 = WOutcome.returned) := by
  rcases hA : writeProviderLoop PId.A w.stepA w.reconA s.a with ⟨sA, pA, eA⟩
  rcases hB : writeProviderLoop PId.B w.stepB w.reconB s.b with ⟨sB, pB, eB⟩
  have hcases := execute_query_write_cases s w sA pA eA sB pB eB hA hB
  have haA : sA = appliedOnProv w.stepA w.reconA s.a := by
    rw [← writeProviderLoop_fst PId.A w.stepA w.reconA s.a, hA]
  have haB : sB = appliedOnProv w.stepB w.reconB s.b := by
    rw [← writeProviderLoop_fst PId.B w.stepB w.reconB s.b, hB]
  rw [hcases]
  dsimp only
  rw [← haA, ← haB]
  clear haA haB hcases hA hB
  generalize pA.active = xa
  generalize pB.active = xb
  revert xa xb sA sB
  decide

end PhotoDB

namespace PhotoDB

/-! Concrete states and worlds used by witnesses and counterexamples. -/

/-- Both providers configured and marked active, caching disabled. -/
def stBoth : St := ⟨⟨true, true⟩, ⟨true, true⟩, ⟨false, false, []⟩⟩

/-- Both providers configured but marked inactive; cache holds rows with
`sl_no` 5 and 3. -/
def stDead : St := ⟨⟨true, false⟩, ⟨true, false⟩, ⟨true, false, [5, 3]⟩⟩

/-- Write world where every statement succeeds. -/
def wAllOk : WWorld := ⟨fun _ => StepRes.ok, fun _ => StepRes.ok, true, true⟩

/-- Write world where provider A fails with a non-transient error and
provider B succeeds. -/
def wAHard : WWorld := ⟨fun _ => StepRes.execFail false, fun _ => StepRes.ok, false, false⟩

/-- Write world where both providers fail with non-transient errors. -/
def wAllHard : WWorld :=
  ⟨fun _ => StepRes.execFail false, fun _ => StepRes.execFail false, false, false⟩

/-- Read world where every statement succeeds. -/
def rdwOk : RWorld := ⟨fun _ _ => 0, fun _ _ => RStep.ok, fun _ _ => true⟩

/-- C1 counterexample: with both providers active at call start, provider A
fails its write with a hard error (and is silently demoted to inactive)
while provider B succeeds — yet `execute_query` reports success, so the
write landed on only one of the two providers that were active when the
write began. -/
theorem c1_counterexample :
    stBoth.a.active = true ∧ stBoth.b.active = true ∧
      (execute_query_write stBoth wAHard).1 = WOutcome.returned ∧
      appliedOnProv wAHard.stepA wAHard.reconA stBoth.a = false := by
  decide

/-- C1 (amended): when the write branch returns normally, every provider
that was active at call start either had the statement applied or has
been marked inactive during the call with a single-provider alert
emitted; application is guaranteed only on the providers still marked
active at return, not on every provider active at call start. -/
theorem c1_amended (s : St) (w : WWorld)
    (h : (execute_query_write s w).1 = WOutcome.returned) :
    (s.a.active = true →
      appliedOnProv w.stepA w.reconA s.a = true ∨
        ((execute_query_write s w).2.1.a.active = false ∧
          Event.singleAlert PId.A ∈ (execute_query_write s w).2.2)) ∧
    (s.b.active = true →
      appliedOnProv w.stepB w.reconB s.b = true ∨
        ((execute_query_write s w).2.1.b.active = false ∧
          Event.singleAlert PId.B ∈ (execute_query_write s w).2.2)) := by
  rcases hA : writeProviderLoop PId.A w.stepA w.reconA s.a with ⟨sA, pA, eA⟩
  rcases hB : writeProviderLoop PId.B w.stepB w.reconB s.b with ⟨sB, pB, eB⟩
  have hcases := execute_query_write_cases s w sA pA eA sB pB eB hA hB
  have haA : sA = appliedOnProv w.stepA w.reconA s.a := by
    rw [← writeProviderLoop_fst PId.A w.stepA w.reconA s.a, hA]
  have haB : sB = appliedOnProv w.stepB w.reconB s.b := by
    rw [← writeProviderLoop_fst PId.B w.stepB w.reconB s.b, hB]
  constructor
  · intro hact
    by_cases happ : appliedOnProv w.stepA w.reconA s.a = true
    · exact Or.inl happ
    · right
      have hsA : sA = false := by
        rw [haA]
        cases hq : appliedOnProv w.stepA w.reconA s.a
        · rfl
        · exact absurd hq happ
      have hfail := writeProviderLoop_failed PId.A w.stepA w.reconA s.a hact
      rw [hA] at hfail
      have hfail2 := hfail hsA
      rw [hcases]
      dsimp only
      refine ⟨hfail2.1, ?_⟩
      have he : eA = [Event.singleAlert PId.A] := hfail2.2
      by_cases hc : (!pA.active && !pB.active) = true
      · simp [hc, he]
      · simp [hc, he]
  · intro hact
    by_cases happ : appliedOnProv w.stepB w.reconB s.b = true
    · exact Or.inl happ
    · right
      have hsB : sB = false := by
        rw [haB]
        cases hq : appliedOnProv w.stepB w.reconB s.b
        · rfl
        · exact absurd hq happ
      have hfail := writeProviderLoop_failed PId.B w.stepB w.reconB s.b hact
      rw [hB] at hfail
      have hfail2 := hfail hsB
      rw [hcases]
      dsimp only
      refine ⟨hfail2.1, ?_⟩
      have he : eB = [Event.singleAlert PId.B] := hfail2.2
      by_cases hc : (!pA.active && !pB.active) = true
      · simp [hc, he]
      · simp [hc, he]

/-- C1 amended witness: with both providers active and every statement
succeeding, the write returns normally and the statement is applied on
provider A. -/
theorem c1_amended_witness :
    appliedOnProv wAllOk.stepA wAllOk.reconA stBoth.a = true ∨
      ((execute_query_write stBoth wAllOk).2.1.a.active = false ∧
        Event.singleAlert PId.A ∈ (execute_query_write stBoth wAllOk).2.2) :=
  (c1_amended stBoth wAllOk (by decide)).1 (by decide)

/-- The read branch with no active provider goes straight to
`_handle_total_failure`: critical alert with the cache watermark, then
`sys.exit(1)`. -/
theorem readAux_noActive (w : RWorld) (fuel d : Nat) (s : St)
    (h : activeOptions s = []) :
    readAux w (fuel + 1) d s = (ROutcome.exited 1, [Event.criticalAlert (watermark s)]) := by
  unfold readAux
  simp [h]

/-- C8: whenever `execute_query` finds no provider active — at the start of
a read, or after a write attempt left both providers inactive — it never
returns: it exits the process with code 1 after emitting the critical
alert that carries the last cached `sl_no` watermark (read from the local
cache when available). -/
theorem c8_total_failure (s : St) (rdw : RWorld) (w : WWorld) :
    ((s.a.active = false ∧ s.b.active = false) →
      execute_query_read s rdw = (ROutcome.exited 1, [Event.criticalAlert (watermark s)])) ∧
    (((execute_query_write s w).2.1.a.active = false ∧
        (execute_query_write s w).2.1.b.active = false) →
      (execute_query_write s w).1 = WOutcome.exited 1 ∧
        Event.criticalAlert (watermark s) ∈ (execute_query_write s w).2.2) := by
  constructor
  · rintro ⟨ha, hb⟩
    have hopts : activeOptions s = [] := by simp [activeOptions, ha, hb]
    show readAux rdw (2 + 1) 0 s = _
    exact readAux_noActive rdw 2 0 s hopts
  · rcases hA : writeProviderLoop PId.A w.stepA w.reconA s.a with ⟨sA, pA, eA⟩
    rcases hB : writeProviderLoop PId.B w.stepB w.reconB s.b with ⟨sB, pB, eB⟩
    have hcases := execute_query_write_cases s w sA pA eA sB pB eB hA hB
    rw [hcases]
    dsimp only
    rintro ⟨hpa, hpb⟩
    rw [hpa, hpb]
    refine ⟨rfl, ?_⟩
    simp [watermark, List.mem_append]

/-- C8 witness: with both providers down, the read exits with the alert
carrying the cached watermark 5, and so does the write. -/
theorem c8_total_failure_witness :
    execute_query_read stDead rdwOk =
      (ROutcome.exited 1, [Event.criticalAlert (watermark stDead)]) ∧
    ((execute_query_write stDead wAllOk).1 = WOutcome.exited 1 ∧
      Event.criticalAlert (watermark stDead) ∈ (execute_query_write stDead wAllOk).2.2) :=
  ⟨(c8_total_failure stDead rdwOk wAllOk).1 (by decide),
   (c8_total_failure stDead rdwOk wAllOk).2 (by decide)⟩

/-- A write outcome of `exited` happens exactly on the total-failure path,
i.e. with both providers inactive afterwards. -/
theorem execute_query_write_exited (s : St) (w : WWorld) (c : Nat)
    (h : (execute_query_write s w).1 = WOutcome.exited c) :
    (execute_query_write s w).2.1.a.active = false ∧
      (execute_query_write s w).2.1.b.active = false := by
  rcases hA : writeProviderLoop PId.A w.stepA w.reconA s.a with ⟨sA, pA, eA⟩
  rcases hB : writeProviderLoop PId.B w.stepB w.reconB s.b with ⟨sB, pB, eB⟩
  have hcases := execute_query_write_cases s w sA pA eA sB pB eB hA hB
  rw [hcases] at h ⊢
  dsimp only at h ⊢
  by_cases h1 : (!pA.active && !pB.active) = true
  · simpa [Bool.and_eq_true, Bool.not_eq_true'] using h1
  · exfalso
    rw [if_neg h1] at h
    by_cases h2 : ((pA.active && !sA) || (pB.active && !sB)) = true
    · rw [if_pos h2] at h
      exact WOutcome.noConfusion h
    · rw [if_neg h2] at h
      exact WOutcome.noConfusion h

/-- C9 counterexample: with both providers active but failing hard on the
write, `_handle_total_failure` fires inside `update_trip_album_id` and the
`SystemExit` is not caught by its `except Exception` — the method does not
return normally in every provider state. -/
theorem c9_counterexample :
    (update_trip_album_id stBoth wAllHard true).1 = WOutcome.exited 1 ∧
      (update_trip_album_id stBoth wAllHard true).1 ≠ WOutcome.returned := by
  decide

/-- C9 (amended): `update_trip_album_id` returns normally — catching and
logging the mirrored-write exception and any cache failure — in every
state where the mirrored write leaves at least one provider marked
active; when the write ends in total failure, the process terminates
instead (SystemExit is not caught by `except Exception`). -/
theorem c9_amended (s : St) (w : WWorld) (cf : Bool)
    (h : (execute_query_write s w).2.1.a.active = true ∨
      (execute_query_write s w).2.1.b.active = true) :
    (update_trip_album_id s w cf).1 = WOutcome.returned := by
  cases ho : (execute_query_write s w).1 with
  | returned =>
    simp only [update_trip_album_id, ho]
    split <;> rfl
  | raised =>
    simp only [update_trip_album_id, ho]
  | exited c =>
    exfalso
    have h2 := execute_query_write_exited s w c ho
    cases h with
    | inl hh =>
      rw [h2.1] at hh
      exact Bool.noConfusion hh
    | inr hh =>
      rw [h2.2] at hh
      exact Bool.noConfusion hh

/-- C9 amended witness: with at least one provider surviving the write,
`update_trip_album_id` returns normally even when the cache update
raises. -/
theorem c9_amended_witness :
    (update_trip_album_id stBoth wAllOk true).1 = WOutcome.returned :=
  c9_amended stBoth wAllOk true (by decide)

end PhotoDB

namespace PhotoDB

/-- One-step unfolding of the read loop (definitional). -/
theorem readAux_succ (w : RWorld) (fuel d : Nat) (s : St) :
    readAux w (fuel + 1) d s =
      (let opts := activeOptions s
       if opts.isEmpty then (ROutcome.exited 1, [Event.criticalAlert (watermark s)])
       else
         let p := opts.getD (w.pick d 0 % opts.length) PId.A
         match w.exec d 0 with
         | RStep.ok => (ROutcome.returned, [Event.tryExec p])
         | RStep.fail t =>
           if t && reconnectOk (provOf s p) (w.recon d p) then
             let q := opts.getD (w.pick d 1 % opts.length) PId.A
             match w.exec d 1 with
             | RStep.ok => (ROutcome.returned, [Event.tryExec p, Event.tryExec q])
             | RStep.fail _ =>
               let rest := readAux w fuel (d + 1) (setInactive s q)
               (rest.1, Event.tryExec p :: Event.tryExec q :: Event.singleAlert q :: rest.2)
           else
             let rest := readAux w fuel (d + 1) (setInactive s p)
             (rest.1, Event.tryExec p :: Event.singleAlert p :: rest.2)) := rfl

theorem mem_activeOptions_A (s : St) : PId.A ∈ activeOptions s ↔ s.a.active = true := by
  cases ha : s.a.active <;> cases hb : s.b.active <;> simp [activeOptions, ha, hb]

theorem mem_activeOptions_B (s : St) : PId.B ∈ activeOptions s ↔ s.b.active = true := by
  cases ha : s.a.active <;> cases hb : s.b.active <;> simp [activeOptions, ha, hb]

/-- Marking a currently-active provider inactive shrinks the option list by
exactly one. -/
theorem length_activeOptions_setInactive (s : St) (q : PId) (hq : q ∈ activeOptions s) :
    (activeOptions (setInactive s q)).length + 1 = (activeOptions s).length := by
  cases q with
  | A =>
    have ha : s.a.active = true := (mem_activeOptions_A s).1 hq
    cases hb : s.b.active <;> simp [activeOptions, setInactive, ha, hb]
  | B =>
    have hb : s.b.active = true := (mem_activeOptions_B s).1 hq
    cases ha : s.a.active <;> simp [activeOptions, setInactive, ha, hb]

theorem getD_mem_of_lt {l : List PId} {i : Nat} (h : i < l.length) (d : PId) :
    l.getD i d ∈ l := by
  rw [List.getD_eq_get l d h]
  exact List.get_mem l i h

/-- With fuel exceeding the number of active providers the read model never
runs out of fuel: the self-recursion of the source is bounded by the
number of providers. -/
theorem readAux_no_fuelOut (w : RWorld) :
    ∀ (fuel d : Nat) (s : St), (activeOptions s).length < fuel →
      (readAux w fuel d s).1 ≠ ROutcome.fuelOut := by
  intro fuel
  induction fuel with
  | zero =>
    intro d s h
    exact absurd h (Nat.not_lt_zero _)
  | succ n ih =>
    intro d s h
    rw [readAux_succ]
    by_cases hopts : (activeOptions s).isEmpty = true
    · simp [hopts]
    · have hopts' : (activeOptions s).isEmpty = false := by
        cases hje : (activeOptions s).isEmpty
        · rfl
        · exact absurd hje hopts
      have hnil : activeOptions s ≠ [] := by
        intro hx
        rw [hx] at hopts'
        exact Bool.noConfusion hopts'
      have hlen : 0 < (activeOptions s).length := List.length_pos.2 hnil
      have hrec : ∀ q : PId, q ∈ activeOptions s →
          (readAux w n (d + 1) (setInactive s q)).1 ≠ ROutcome.fuelOut := by
        intro q hqmem
        apply ih
        have hshrink := length_activeOptions_setInactive s q hqmem
        omega
      simp only [hopts']
      cases hexec : w.exec d 0 with
      | ok => simp
      | fail t =>
        cases hcond : (t && reconnectOk
            (provOf s ((activeOptions s).getD (w.pick d 0 % (activeOptions s).length) PId.A))
            (w.recon d ((activeOptions s).getD (w.pick d 0 % (activeOptions s).length) PId.A))) with
        | true =>
          simp only [hcond, if_true]
          cases hexec2 : w.exec d 1 with
          | ok => simp
          | fail t2 =>
            exact hrec _ (getD_mem_of_lt (Nat.mod_lt _ hlen) PId.A)
        | false =>
          simp only [hcond]
          exact hrec _ (getD_mem_of_lt (Nat.mod_lt _ hlen) PId.A)

/-- Fuel 3 always suffices at the top level, so the model's fuel branch is
unreachable. -/
theorem execute_query_read_total (s : St) (w : RWorld) :
    (execute_query_read s w).1 ≠ ROutcome.fuelOut := by
  apply readAux_no_fuelOut
  rcases s with ⟨⟨ua, aa⟩, ⟨ub, ab⟩, c⟩
  cases aa <;> cases ab <;> simp [activeOptions]

end PhotoDB

namespace PhotoDB

/-- Read world: the first pick selects index 0, the second index 1; the
first executed statement fails with a connection-classified error, every
later one succeeds; reconnects succeed. -/
def rdwSwitch : RWorld :=
  ⟨fun _ t => t,
   fun d t => if d = 0 && t = 0 then RStep.fail true else RStep.ok,
   fun _ _ => true⟩

/-- Read world for a sole-provider store: picks always index 0, first
statement fails transiently, later ones succeed, reconnects succeed. -/
def rdwRetry : RWorld :=
  ⟨fun _ _ => 0,
   fun d t => if d = 0 && t = 0 then RStep.fail true else RStep.ok,
   fun _ _ => true⟩

/-- Provider A configured and active, provider B configured but inactive. -/
def stOnlyA : St := ⟨⟨true, true⟩, ⟨true, false⟩, ⟨false, false, []⟩⟩

/-- C4 counterexample: with both providers active, attempt 0 randomly picks
A, which fails with a transient error and reconnects successfully — yet
the single retry executes against B, because the retry re-enters the loop
and re-picks at random instead of being pinned to the failed provider. -/
theorem c4_counterexample :
    rdwSwitch.exec 0 0 = RStep.fail true ∧
      reconnectOk (provOf stBoth PId.A) (rdwSwitch.recon 0 PId.A) = true ∧
      (execute_query_read stBoth rdwSwitch).2 =
        [Event.tryExec PId.A, Event.tryExec PId.B] := by
  decide

/-- C4 (amended): after a transient error and a successful reconnect, the
single retry executes against a provider chosen afresh by `random.choice`
over the still-active option list — not necessarily the provider that
failed; only when exactly one provider is active is the retry guaranteed
to hit the same provider. -/
theorem c4_amended (s : St) (w : RWorld)
    (hne : activeOptions s ≠ [])
    (he : w.exec 0 0 = RStep.fail true)
    (p q : PId)
    (hp : p = (activeOptions s).getD (w.pick 0 0 % (activeOptions s).length) PId.A)
    (hq : q = (activeOptions s).getD (w.pick 0 1 % (activeOptions s).length) PId.A)
    (hr : reconnectOk (provOf s p) (w.recon 0 p) = true) :
    (∃ l, (execute_query_read s w).2 = Event.tryExec p :: Event.tryExec q :: l) ∧
      ((activeOptions s).length = 1 → q = p) := by
  have hopts : (activeOptions s).isEmpty = false := by
    cases hcl : activeOptions s
    · exact absurd hcl hne
    · rfl
  constructor
  · have h3 : execute_query_read s w = readAux w (2 + 1) 0 s := rfl
    rw [h3, readAux_succ]
    simp only [hopts, he, ← hp, ← hq]
    rw [hr]
    simp only [Bool.and_true]
    cases hexec2 : w.exec 0 1 with
    | ok =>
      exact ⟨[], rfl⟩
    | fail t2 =>
      exact ⟨Event.singleAlert q :: (readAux w 2 1 (setInactive s q)).2, rfl⟩
  · intro h1
    rw [hp, hq, h1]
    simp [Nat.mod_one]

/-- C4 amended witness: with provider A the sole active provider, the
transient failure plus reconnect is retried on A itself. -/
theorem c4_amended_witness :
    (∃ l, (execute_query_read stOnlyA rdwRetry).2 =
        Event.tryExec PId.A :: Event.tryExec PId.A :: l) ∧
      ((activeOptions stOnlyA).length = 1 → PId.A = PId.A) :=
  c4_amended stOnlyA rdwRetry (by decide) (by decide) PId.A PId.A (by decide) (by decide)
    (by decide)

end PhotoDB

namespace PhotoDB

/-- C2 witness: in the world where provider A fails hard and B succeeds,
the write does not raise, so it either exited or returned — and it in
fact returned. -/
theorem c2_mirrored_write_raise_iff_witness :
    (execute_query_write stBoth wAHard).1 = WOutcome.exited 1 ∨
      (execute_query_write stBoth wAHard).1 = WOutcome.returned :=
  (c2_mirrored_write_raise_iff stBoth wAHard).2 (by decide)

end PhotoDB

namespace PhotoDB

theorem maxSl_cons (r : Row) (t : List Row) : maxSl (r :: t) = max r.sl (maxSl t) := rfl

theorem le_maxSl_of_mem {r : Row} {t : List Row} (h : r ∈ t) : r.sl ≤ maxSl t := by
  induction t with
  | nil => cases h
  | cons x xs ih =>
    rcases List.mem_cons.1 h with h1 | h2
    · rw [h1, maxSl_cons]
      exact Nat.le_max_left _ _
    · rw [maxSl_cons]
      exact Nat.le_trans (ih h2) (Nat.le_max_right _ _)

theorem maxSl_le {t : List Row} {m : Nat} (h : ∀ r ∈ t, r.sl ≤ m) : maxSl t ≤ m := by
  induction t with
  | nil => exact Nat.zero_le m
  | cons x xs ih =>
    rw [maxSl_cons]
    exact Nat.max_le.2
      ⟨h x (List.mem_cons_self x xs), ih (fun r hr => h r (List.mem_cons_of_mem x hr))⟩

theorem maxSl_append (s t : List Row) : maxSl (s ++ t) = max (maxSl s) (maxSl t) := by
  induction s with
  | nil =>
    rw [List.nil_append]
    exact (Nat.zero_max _).symm
  | cons x xs ih =>
    rw [List.cons_append, maxSl_cons, maxSl_cons, ih, Nat.max_assoc]

theorem exists_sl_eq_maxSl {t : List Row} (h : 0 < maxSl t) : ∃ r ∈ t, r.sl = maxSl t := by
  induction t with
  | nil => exact absurd h (by simp [maxSl])
  | cons x xs ih =>
    rw [maxSl_cons] at h ⊢
    by_cases hle : maxSl xs ≤ x.sl
    · exact ⟨x, List.mem_cons_self x xs, (Nat.max_eq_left hle).symm⟩
    · have hlt : x.sl < maxSl xs := Nat.lt_of_not_le hle
      have hx : max x.sl (maxSl xs) = maxSl xs := Nat.max_eq_right (Nat.le_of_lt hlt)
      rw [hx] at h ⊢
      obtain ⟨r, hrmem, hreq⟩ := ih h
      exact ⟨r, List.mem_cons_of_mem x hrmem, hreq⟩

theorem mem_insertAsc {x r : Row} {t : List Row} : x ∈ insertAsc r t ↔ x = r ∨ x ∈ t := by
  induction t with
  | nil => simp [insertAsc]
  | cons y ys ih =>
    unfold insertAsc
    by_cases hc : r.sl ≤ y.sl
    · simp [hc]
    · simp only [hc, if_false, List.mem_cons, ih]
      tauto

theorem maxSl_insertAsc (r : Row) (t : List Row) :
    maxSl (insertAsc r t) = max r.sl (maxSl t) := by
  induction t with
  | nil => rfl
  | cons y ys ih =>
    unfold insertAsc
    by_cases hc : r.sl ≤ y.sl
    · simp [hc, maxSl_cons]
    · simp only [hc, if_false, maxSl_cons, ih]
      rw [Nat.max_left_comm]

theorem mem_sortBySl {x : Row} {t : List Row} : x ∈ sortBySl t ↔ x ∈ t := by
  induction t with
  | nil => simp [sortBySl]
  | cons y ys ih =>
    show x ∈ insertAsc y (sortBySl ys) ↔ _
    rw [mem_insertAsc, ih]
    simp [List.mem_cons]

theorem maxSl_sortBySl (t : List Row) : maxSl (sortBySl t) = maxSl t := by
  induction t with
  | nil => rfl
  | cons y ys ih =>
    show maxSl (insertAsc y (sortBySl ys)) = _
    rw [maxSl_insertAsc, ih, maxSl_cons]

/-- Ascending order by `sl_no`, the order the leader query returns. -/
def SortedSl (t : List Row) : Prop := List.Chain' (fun x y => x.sl ≤ y.sl) t

theorem sortBySl_eq_of_sorted {t : List Row} (h : SortedSl t) : sortBySl t = t := by
  induction t with
  | nil => rfl
  | cons y ys ih =>
    have hys : SortedSl ys := by
      cases ys with
      | nil => exact List.chain'_nil
      | cons z zs => exact (List.chain'_cons.1 h).2
    show insertAsc y (sortBySl ys) = y :: ys
    rw [ih hys]
    cases ys with
    | nil => rfl
    | cons z zs =>
      have hyz : y.sl ≤ z.sl := (List.chain'_cons.1 h).1
      unfold insertAsc
      rw [if_pos hyz]

theorem rowsFrom_append (f : Nat → Nat) (j k : Nat) :
    ∀ a, rowsFrom f a (j + k) = rowsFrom f a j ++ rowsFrom f (a + j) k := by
  induction j with
  | zero =>
    intro a
    simp [rowsFrom]
  | succ n ih =>
    intro a
    have h1 : (n + 1) + k = (n + k) + 1 := by omega
    rw [h1]
    show (⟨a, f a⟩ : Row) :: rowsFrom f (a + 1) (n + k) = _
    rw [ih (a + 1)]
    show _ = ((⟨a, f a⟩ : Row) :: rowsFrom f (a + 1) n) ++ rowsFrom f (a + (n + 1)) k
    rw [List.cons_append]
    rw [show a + 1 + n = a + (n + 1) from by omega]

theorem filter_rowsFrom_pos (f : Nat → Nat) (k : Nat) :
    ∀ a m, m < a →
      (rowsFrom f a k).filter (fun r => decide (m < r.sl)) = rowsFrom f a k := by
  induction k with
  | zero =>
    intro a m _
    rfl
  | succ n ih =>
    intro a m h
    show List.filter _ ((⟨a, f a⟩ : Row) :: rowsFrom f (a + 1) n) = _
    rw [List.filter_cons]
    simp only [decide_eq_true_eq]
    rw [if_pos h, ih (a + 1) m (Nat.lt_succ_of_lt h)]
    rfl

theorem filter_rowsFrom_zero (f : Nat → Nat) (k : Nat) :
    ∀ a m, a + k ≤ m + 1 →
      (rowsFrom f a k).filter (fun r => decide (m < r.sl)) = [] := by
  induction k with
  | zero =>
    intro a m _
    rfl
  | succ n ih =>
    intro a m h
    show List.filter _ ((⟨a, f a⟩ : Row) :: rowsFrom f (a + 1) n) = _
    rw [List.filter_cons]
    simp only [decide_eq_true_eq]
    rw [if_neg (by omega), ih (a + 1) m (by omega)]

theorem maxSl_rowsFrom_succ (f : Nat → Nat) (k : Nat) :
    ∀ a, maxSl (rowsFrom f a (k + 1)) = a + k := by
  induction k with
  | zero =>
    intro a
    show max a (maxSl []) = a + 0
    simp [maxSl]
  | succ n ih =>
    intro a
    show maxSl ((⟨a, f a⟩ : Row) :: rowsFrom f (a + 1) (n + 1)) = _
    rw [maxSl_cons, ih (a + 1)]
    show max a (a + 1 + n) = a + (n + 1)
    rw [Nat.max_eq_right (by omega)]
    omega

theorem maxSl_seqRows (f : Nat → Nat) (n : Nat) : maxSl (seqRows f n) = n := by
  cases n with
  | zero => rfl
  | succ k =>
    show maxSl (rowsFrom f 1 (k + 1)) = k + 1
    rw [maxSl_rowsFrom_succ f k 1]
    omega

theorem sorted_rowsFrom (f : Nat → Nat) (k : Nat) : ∀ a, SortedSl (rowsFrom f a k) := by
  induction k with
  | zero =>
    intro a
    exact List.chain'_nil
  | succ n ih =>
    intro a
    cases n with
    | zero => exact List.chain'_singleton _
    | succ m =>
      show List.Chain' _
        ((⟨a, f a⟩ : Row) :: (⟨a + 1, f (a + 1)⟩ : Row) :: rowsFrom f (a + 1 + 1) m)
      rw [List.chain'_cons]
      exact ⟨Nat.le_succ a, ih (a + 1)⟩

end PhotoDB

namespace PhotoDB

/-- `_reconcile_table` under the failure-free world. -/
theorem reconcile_table_good (A B cache : List Row) (cp : Bool) :
    reconcile_table A B cache cp goodT =
      (if maxSl A = maxSl B then ⟨A, B, cache, [], [REvent.inSync]⟩
       else
         let aLeads := decide (maxSl B < maxSl A)
         let leadRows := if aLeads then A else B
         let lagRows := if aLeads then B else A
         let lagMax := if aLeads then maxSl B else maxSl A
         let missing := missingRows leadRows lagMax
         if missing.isEmpty then ⟨A, B, cache, [], [REvent.mismatch]⟩
         else
           let lag' := lagRows ++ missing
           ⟨if aLeads then A else lag', if aLeads then lag' else B,
             if cp then missing.foldl upsertCache cache else cache,
             missing, [REvent.mismatch, REvent.recovered missing.length]⟩) := by
  cases cp <;> rfl

/-- C5: with both providers holding the same consecutive run of rows —
the leader `sl_no = 1..n`, the lagger the prefix `1..m` — the failure-free
`_reconcile_table` copies exactly the rows with `sl_no` above the lagger's
max, in ascending `sl_no` order, into the lagger (and `REPLACE`s them into
the local cache when caching is enabled), after which the lagger holds all
the leader's rows and `max(sl_no)` agrees on both providers. -/
theorem c5_reconciliation_converges (n m : Nat) (f : Nat → Nat) (cache : List Row)
    (cp : Bool) (h : m ≤ n) :
    (reconcile_table (seqRows f n) (seqRows f m) cache cp goodT).a = seqRows f n ∧
    (reconcile_table (seqRows f n) (seqRows f m) cache cp goodT).b = seqRows f n ∧
    (reconcile_table (seqRows f n) (seqRows f m) cache cp goodT).moved =
      rowsFrom f (m + 1) (n - m) ∧
    SortedSl (reconcile_table (seqRows f n) (seqRows f m) cache cp goodT).moved ∧
    (reconcile_table (seqRows f n) (seqRows f m) cache cp goodT).cache =
      (if cp then
        ((reconcile_table (seqRows f n) (seqRows f m) cache cp goodT).moved).foldl
          upsertCache cache
      else cache) ∧
    maxSl (reconcile_table (seqRows f n) (seqRows f m) cache cp goodT).a =
      maxSl (reconcile_table (seqRows f n) (seqRows f m) cache cp goodT).b := by
  by_cases hm : m = n
  · subst hm
    rw [reconcile_table_good]
    rw [if_pos rfl]
    refine ⟨rfl, rfl, ?_, ?_, ?_, rfl⟩
    · rw [Nat.sub_self]
      rfl
    · exact List.chain'_nil
    · cases cp <;> rfl
  · have hmn : m < n := Nat.lt_of_le_of_ne h hm
    obtain ⟨j, rfl⟩ : ∃ j, n = m + (j + 1) := ⟨n - m - 1, by omega⟩
    have hsplit : seqRows f (m + (j + 1)) = seqRows f m ++ rowsFrom f (m + 1) (j + 1) := by
      show rowsFrom f 1 (m + (j + 1)) = rowsFrom f 1 m ++ rowsFrom f (m + 1) (j + 1)
      rw [rowsFrom_append f m (j + 1) 1]
      rw [show 1 + m = m + 1 from by omega]
    have hmaxA : maxSl (seqRows f (m + (j + 1))) = m + (j + 1) := maxSl_seqRows f _
    have hmaxB : maxSl (seqRows f m) = m := maxSl_seqRows f m
    have hmiss : missingRows (seqRows f (m + (j + 1))) m = rowsFrom f (m + 1) (j + 1) := by
      unfold missingRows
      rw [hsplit]
      unfold seqRows
      rw [List.filter_append, filter_rowsFrom_zero f m 1 m (by omega),
        filter_rowsFrom_pos f (j + 1) (m + 1) m (by omega), List.nil_append]
      exact sortBySl_eq_of_sorted (sorted_rowsFrom f (j + 1) (m + 1))
    rw [reconcile_table_good]
    rw [hmaxA, hmaxB]
    rw [if_neg (by omega : ¬(m + (j + 1) = m))]
    have hlt : decide (m < m + (j + 1)) = true := decide_eq_true (by omega)
    simp only [hlt, if_true]
    rw [hmiss]
    have hne : (rowsFrom f (m + 1) (j + 1)).isEmpty = false := rfl
    simp only [hne, Bool.false_eq_true, if_false]
    refine ⟨trivial, hsplit.symm, ?_, sorted_rowsFrom f (j + 1) (m + 1), trivial, ?_⟩
    · rw [show m + (j + 1) - m = j + 1 from by omega]
    · rw [← hsplit]

/-- C5 witness: the spec's P3 instance — provider A holds rows 1..10,
provider B holds rows 1..7; reconciliation copies rows 8..10 in order,
after which B holds 1..10 and the maxes agree. -/
theorem c5_reconciliation_converges_witness :
    (reconcile_table (seqRows (fun k => k) 10) (seqRows (fun k => k) 7) [] true goodT).a =
      seqRows (fun k => k) 10 ∧
    (reconcile_table (seqRows (fun k => k) 10) (seqRows (fun k => k) 7) [] true goodT).b =
      seqRows (fun k => k) 10 ∧
    (reconcile_table (seqRows (fun k => k) 10) (seqRows (fun k => k) 7) [] true goodT).moved =
      rowsFrom (fun k => k) 8 3 ∧
    SortedSl
      (reconcile_table (seqRows (fun k => k) 10) (seqRows (fun k => k) 7) [] true goodT).moved ∧
    (reconcile_table (seqRows (fun k => k) 10) (seqRows (fun k => k) 7) [] true goodT).cache =
      (if true then
        ((reconcile_table (seqRows (fun k => k) 10) (seqRows (fun k => k) 7) []
          true goodT).moved).foldl upsertCache []
      else []) ∧
    maxSl (reconcile_table (seqRows (fun k => k) 10) (seqRows (fun k => k) 7) [] true goodT).a =
      maxSl (reconcile_table (seqRows (fun k => k) 10) (seqRows (fun k => k) 7) [] true goodT).b :=
  c5_reconciliation_converges 10 7 (fun k => k) [] true (by decide)

end PhotoDB

namespace PhotoDB

/-- Table of rows `sl_no = 1..7` (payload equal to the sequence number). -/
def tbl7 : List Row := seqRows (fun k => k) 7

/-- World in which only the `MAX(sl_no)` query on provider A raises. -/
def cwMaxA : TWorld := ⟨true, false, false, none, false⟩

/-- C3 counterexample: both providers hold the same rows `1..7`; the
`MAX(sl_no)` read from A fails, so A's max defaults to 0 while B reports
7 — and instead of skipping the table, `_reconcile_table` copies all of
B's rows into A (duplicating every row), transferring 7 rows. -/
theorem c3_counterexample :
    (reconcile_table tbl7 tbl7 [] true cwMaxA).moved = tbl7 ∧
      (reconcile_table tbl7 tbl7 [] true cwMaxA).moved ≠ [] ∧
      (reconcile_table tbl7 tbl7 [] true cwMaxA).a = tbl7 ++ tbl7 := by
  decide

/-- `_reconcile_table` when only provider A's `MAX(sl_no)` read fails and
the rest of the pass is failure-free: the table is not skipped — provider
B is taken as leader against a defaulted lagger max of 0, and all of B's
rows with positive `sl_no` are inserted into A. -/
theorem reconcile_table_aFail (A B cache : List Row) (cp : Bool) (w : TWorld)
    (h1 : w.maxAFails = true) (h2 : w.maxBFails = false) (h3 : w.fetchFails = false)
    (h4 : w.insFail = none) (h5 : w.cacheFail = false) (hB : 0 < maxSl B) :
    reconcile_table A B cache cp w =
      ⟨A ++ missingRows B 0, B,
       if cp then (missingRows B 0).foldl upsertCache cache else cache,
       missingRows B 0,
       [REvent.mismatch, REvent.recovered (missingRows B 0).length]⟩ := by
  obtain ⟨r, hr, hsl⟩ := exists_sl_eq_maxSl hB
  have hrmem : r ∈ missingRows B 0 := by
    unfold missingRows
    rw [mem_sortBySl]
    exact List.mem_filter.2 ⟨hr, decide_eq_true (by omega)⟩
  have hempty : (missingRows B 0).isEmpty = false := by
    cases hcase : missingRows B 0
    · rw [hcase] at hrmem
      cases hrmem
    · rfl
  rcases w with ⟨wa, wb, wf, wi, wc⟩
  dsimp only at h1 h2 h3 h4 h5
  subst h1
  subst h2
  subst h3
  subst h4
  subst h5
  unfold reconcile_table
  dsimp only
  simp only [eq_self_iff_true, if_true, Bool.false_eq_true, if_false]
  rw [if_neg (by omega : ¬(0 = maxSl B))]
  have hdec : decide (maxSl B < 0) = false := decide_eq_false (by omega)
  simp only [hdec, Bool.false_eq_true, if_false, hempty, Bool.and_false]

/-- C3 (amended): a failed `MAX(sl_no)` read is logged and that side's max
defaults to 0; the table's reconciliation is skipped only when the two
resulting values coincide — in particular when both reads fail — while a
single-sided failure with data on the other side does **not** skip: the
failed side is treated as the lagger with max 0 and receives a copy of
every leader row with positive `sl_no`.  Reconciliation of the other
table proceeds regardless of what happened to this one. -/
theorem c3_amended :
    (∀ (A B cache : List Row) (cp : Bool) (w : TWorld),
      w.maxAFails = true → w.maxBFails = true →
        reconcile_table A B cache cp w = ⟨A, B, cache, [], [REvent.inSync]⟩) ∧
    (∀ (A B cache : List Row) (cp : Bool) (w : TWorld),
      w.maxAFails = true → w.maxBFails = false → w.fetchFails = false →
      w.insFail = none → w.cacheFail = false → 0 < maxSl B →
        (reconcile_table A B cache cp w).moved = missingRows B 0 ∧
          (reconcile_table A B cache cp w).moved ≠ []) ∧
    (∀ (s : DBSt) (wm wm' wt : TWorld) (sfA sfB : Bool),
      (reconcile_databases s wm wt sfA sfB).2.2 =
        (reconcile_databases s wm' wt sfA sfB).2.2) := by
  refine ⟨?_, ?_, ?_⟩
  · intro A B cache cp w h1 h2
    unfold reconcile_table
    rw [h1, h2]
    simp
  · intro A B cache cp w h1 h2 h3 h4 h5 hB
    rw [reconcile_table_aFail A B cache cp w h1 h2 h3 h4 h5 hB]
    refine ⟨rfl, ?_⟩
    obtain ⟨r, hr, hsl⟩ := exists_sl_eq_maxSl hB
    have hrmem : r ∈ missingRows B 0 := by
      unfold missingRows
      rw [mem_sortBySl]
      exact List.mem_filter.2 ⟨hr, decide_eq_true (by omega)⟩
    intro hnil
    have hnil' : missingRows B 0 = [] := hnil
    rw [hnil'] at hrmem
    cases hrmem
  · intro s wm wm' wt sfA sfB
    unfold reconcile_databases
    by_cases hact : (s.activeA && s.activeB) = true
    · simp only [hact, Bool.not_true, Bool.false_eq_true, if_false]
    · have hact' : (s.activeA && s.activeB) = false := by
        cases hcc : (s.activeA && s.activeB)
        · rfl
        · exact absurd hcc hact
      simp only [hact', Bool.not_false, if_true]

/-- C3 amended witness: both `MAX` reads failing skips the table; A's read
alone failing transfers B's seven rows; and the trips table's outcome is
unchanged whether or not the media world fails. -/
theorem c3_amended_witness :
    reconcile_table tbl7 tbl7 [] true ⟨true, true, false, none, false⟩ =
      ⟨tbl7, tbl7, [], [], [REvent.inSync]⟩ ∧
    ((reconcile_table tbl7 tbl7 [] true cwMaxA).moved = missingRows tbl7 0 ∧
      (reconcile_table tbl7 tbl7 [] true cwMaxA).moved ≠ []) ∧
    (reconcile_databases
        ⟨true, true, tbl7, tbl7, [], [], true, [], [], 0, 0, 0, 0⟩ cwMaxA goodT false false).2.2 =
      (reconcile_databases
        ⟨true, true, tbl7, tbl7, [], [], true, [], [], 0, 0, 0, 0⟩ goodT goodT false false).2.2 :=
  ⟨c3_amended.1 tbl7 tbl7 [] true ⟨true, true, false, none, false⟩ rfl rfl,
   c3_amended.2.1 tbl7 tbl7 [] true cwMaxA rfl rfl rfl rfl rfl (by decide),
   c3_amended.2.2 ⟨true, true, tbl7, tbl7, [], [], true, [], [], 0, 0, 0, 0⟩ cwMaxA goodT goodT
     false false⟩

end PhotoDB

namespace PhotoDB

/-- After a failure-free `_reconcile_table` pass the two providers agree on
`max(sl_no)` for that table. -/
theorem maxSl_reconcile_good (A B cache : List Row) (cp : Bool) :
    maxSl (reconcile_table A B cache cp goodT).a =
      maxSl (reconcile_table A B cache cp goodT).b := by
  rw [reconcile_table_good]
  by_cases heq : maxSl A = maxSl B
  · rw [if_pos heq]
    exact heq
  · rw [if_neg heq]
    by_cases hlt : maxSl B < maxSl A
    · have hdec : decide (maxSl B < maxSl A) = true := decide_eq_true hlt
      dsimp only
      simp only [hdec, if_true]
      have hpos : 0 < maxSl A := by omega
      obtain ⟨r, hr, hsl⟩ := exists_sl_eq_maxSl hpos
      have hrmem : r ∈ missingRows A (maxSl B) := by
        unfold missingRows
        rw [mem_sortBySl]
        exact List.mem_filter.2 ⟨hr, decide_eq_true (by omega)⟩
      have hempty : (missingRows A (maxSl B)).isEmpty = false := by
        cases hcase : missingRows A (maxSl B)
        · rw [hcase] at hrmem
          cases hrmem
        · rfl
      simp only [hempty, Bool.false_eq_true, if_false]
      show maxSl A = maxSl (B ++ missingRows A (maxSl B))
      rw [maxSl_append]
      have hmax : maxSl (missingRows A (maxSl B)) = maxSl A := by
        apply Nat.le_antisymm
        · apply maxSl_le
          intro x hx
          unfold missingRows at hx
          rw [mem_sortBySl] at hx
          exact le_maxSl_of_mem (List.mem_of_mem_filter hx)
        · have hle := le_maxSl_of_mem hrmem
          omega
      rw [hmax, Nat.max_eq_right (Nat.le_of_lt hlt)]
    · have hlt2 : maxSl A < maxSl B := by omega
      have hdec : decide (maxSl B < maxSl A) = false := decide_eq_false hlt
      dsimp only
      simp only [hdec, Bool.false_eq_true, if_false]
      have hpos : 0 < maxSl B := by omega
      obtain ⟨r, hr, hsl⟩ := exists_sl_eq_maxSl hpos
      have hrmem : r ∈ missingRows B (maxSl A) := by
        unfold missingRows
        rw [mem_sortBySl]
        exact List.mem_filter.2 ⟨hr, decide_eq_true (by omega)⟩
      have hempty : (missingRows B (maxSl A)).isEmpty = false := by
        cases hcase : missingRows B (maxSl A)
        · rw [hcase] at hrmem
          cases hrmem
        · rfl
      simp only [hempty, Bool.false_eq_true, if_false]
      show maxSl (A ++ missingRows B (maxSl A)) = maxSl B
      rw [maxSl_append]
      have hmax : maxSl (missingRows B (maxSl A)) = maxSl B := by
        apply Nat.le_antisymm
        · apply maxSl_le
          intro x hx
          unfold missingRows at hx
          rw [mem_sortBySl] at hx
          exact le_maxSl_of_mem (List.mem_of_mem_filter hx)
        · have hle := le_maxSl_of_mem hrmem
          omega
      rw [hmax, Nat.max_eq_right (Nat.le_of_lt hlt2)]

theorem sync_sequences_rows (s : DBSt) (fa fb : Bool) :
    (sync_sequences s fa fb).activeA = s.activeA ∧
    (sync_sequences s fa fb).activeB = s.activeB ∧
    (sync_sequences s fa fb).mediaA = s.mediaA ∧
    (sync_sequences s fa fb).mediaB = s.mediaB ∧
    (sync_sequences s fa fb).tripsA = s.tripsA ∧
    (sync_sequences s fa fb).tripsB = s.tripsB := by
  rcases s with ⟨aA, aB, mA, mB, tA, tB, cp, cM, cT, q1, q2, q3, q4⟩
  cases aA <;> cases aB <;> cases fa <;> cases fb <;> simp [sync_sequences]

theorem sync_sequences_idem (s : DBSt) :
    sync_sequences (sync_sequences s false false) false false =
      sync_sequences s false false := by
  rcases s with ⟨aA, aB, mA, mB, tA, tB, cp, cM, cT, q1, q2, q3, q4⟩
  cases aA <;> cases aB <;> simp [sync_sequences]

theorem reconcile_databases_active (s : DBSt) (wm wt : TWorld) (sfA sfB : Bool)
    (hact : (s.activeA && s.activeB) = true) :
    reconcile_databases s wm wt sfA sfB =
      (sync_sequences
        { s with
          mediaA := (reconcile_table s.mediaA s.mediaB s.cacheMedia s.cachePresent wm).a,
          mediaB := (reconcile_table s.mediaA s.mediaB s.cacheMedia s.cachePresent wm).b,
          cacheMedia := (reconcile_table s.mediaA s.mediaB s.cacheMedia s.cachePresent wm).cache,
          tripsA := (reconcile_table s.tripsA s.tripsB s.cacheTrips s.cachePresent wt).a,
          tripsB := (reconcile_table s.tripsA s.tripsB s.cacheTrips s.cachePresent wt).b,
          cacheTrips := (reconcile_table s.tripsA s.tripsB s.cacheTrips s.cachePresent wt).cache }
        sfA sfB,
       (reconcile_table s.mediaA s.mediaB s.cacheMedia s.cachePresent wm).moved,
       (reconcile_table s.tripsA s.tripsB s.cacheTrips s.cachePresent wt).moved) := by
  unfold reconcile_databases
  simp only [hact, Bool.not_true, Bool.false_eq_true, if_false]

theorem reconcile_databases_degraded (s : DBSt) (wm wt : TWorld) (sfA sfB : Bool)
    (hact : (s.activeA && s.activeB) = false) :
    reconcile_databases s wm wt sfA sfB = (sync_sequences s sfA sfB, [], []) := by
  unfold reconcile_databases
  simp only [hact, Bool.not_false, if_true]

theorem reconcile_databases_stable (s : DBSt)
    (hm : s.activeA = true → s.activeB = true → maxSl s.mediaA = maxSl s.mediaB)
    (ht : s.activeA = true → s.activeB = true → maxSl s.tripsA = maxSl s.tripsB)
    (hsync : sync_sequences s false false = s) :
    reconcile_databases s goodT goodT false false = (s, [], []) := by
  by_cases hact : (s.activeA && s.activeB) = true
  · rw [Bool.and_eq_true] at hact
    obtain ⟨ha, hb⟩ := hact
    have hact2 : (s.activeA && s.activeB) = true := by rw [ha, hb]; rfl
    rw [reconcile_databases_active s goodT goodT false false hact2]
    rw [reconcile_table_good, if_pos (hm ha hb)]
    rw [reconcile_table_good, if_pos (ht ha hb)]
    dsimp only
    rw [show ({ s with
        mediaA := s.mediaA, mediaB := s.mediaB, cacheMedia := s.cacheMedia,
        tripsA := s.tripsA, tripsB := s.tripsB, cacheTrips := s.cacheTrips } : DBSt) = s
      from rfl]
    rw [hsync]
  · have hact2 : (s.activeA && s.activeB) = false := by
      cases hcc : (s.activeA && s.activeB)
      · rfl
      · exact absurd hcc hact
    rw [reconcile_databases_degraded s goodT goodT false false hact2]
    rw [hsync]

/-- C6: `reconcile_databases` is idempotent with respect to data transfer —
for every state, after a failure-free first call, a failure-free second
call with no intervening writes changes nothing (providers, caches and
sequence counters included) and transfers no rows for either table: the
per-table comparison finds equal `max(sl_no)` and returns before any
transfer. -/
theorem c6_reconcile_idempotent (s : DBSt) :
    (reconcile_databases (reconcile_databases s goodT goodT false false).1
        goodT goodT false false).1 =
      (reconcile_databases s goodT goodT false false).1 ∧
    (reconcile_databases (reconcile_databases s goodT goodT false false).1
        goodT goodT false false).2.1 = [] ∧
    (reconcile_databases (reconcile_databases s goodT goodT false false).1
        goodT goodT false false).2.2 = [] := by
  by_cases hact : (s.activeA && s.activeB) = true
  · rw [reconcile_databases_active s goodT goodT false false hact]
    dsimp only
    have hstable := reconcile_databases_stable
      (sync_sequences
        { s with
          mediaA := (reconcile_table s.mediaA s.mediaB s.cacheMedia s.cachePresent goodT).a,
          mediaB := (reconcile_table s.mediaA s.mediaB s.cacheMedia s.cachePresent goodT).b,
          cacheMedia := (reconcile_table s.mediaA s.mediaB s.cacheMedia s.cachePresent goodT).cache,
          tripsA := (reconcile_table s.tripsA s.tripsB s.cacheTrips s.cachePresent goodT).a,
          tripsB := (reconcile_table s.tripsA s.tripsB s.cacheTrips s.cachePresent goodT).b,
          cacheTrips := (reconcile_table s.tripsA s.tripsB s.cacheTrips s.cachePresent goodT).cache }
        false false)
      (fun _ _ => by
        obtain ⟨_, _, hma, hmb, _, _⟩ := sync_sequences_rows
          { s with
            mediaA := (reconcile_table s.mediaA s.mediaB s.cacheMedia s.cachePresent goodT).a,
            mediaB := (reconcile_table s.mediaA s.mediaB s.cacheMedia s.cachePresent goodT).b,
            cacheMedia := (reconcile_table s.mediaA s.mediaB s.cacheMedia s.cachePresent goodT).cache,
            tripsA := (reconcile_table s.tripsA s.tripsB s.cacheTrips s.cachePresent goodT).a,
            tripsB := (reconcile_table s.tripsA s.tripsB s.cacheTrips s.cachePresent goodT).b,
            cacheTrips := (reconcile_table s.tripsA s.tripsB s.cacheTrips s.cachePresent goodT).cache }
          false false
        rw [hma, hmb]
        exact maxSl_reconcile_good s.mediaA s.mediaB s.cacheMedia s.cachePresent)
      (fun _ _ => by
        obtain ⟨_, _, _, _, hta, htb⟩ := sync_sequences_rows
          { s with
            mediaA := (reconcile_table s.mediaA s.mediaB s.cacheMedia s.cachePresent goodT).a,
            mediaB := (reconcile_table s.mediaA s.mediaB s.cacheMedia s.cachePresent goodT).b,
            cacheMedia := (reconcile_table s.mediaA s.mediaB s.cacheMedia s.cachePresent goodT).cache,
            tripsA := (reconcile_table s.tripsA s.tripsB s.cacheTrips s.cachePresent goodT).a,
            tripsB := (reconcile_table s.tripsA s.tripsB s.cacheTrips s.cachePresent goodT).b,
            cacheTrips := (reconcile_table s.tripsA s.tripsB s.cacheTrips s.cachePresent goodT).cache }
          false false
        rw [hta, htb]
        exact maxSl_reconcile_good s.tripsA s.tripsB s.cacheTrips s.cachePresent)
      (sync_sequences_idem _)
    rw [hstable]
    exact ⟨rfl, rfl, rfl⟩
  · have hact2 : (s.activeA && s.activeB) = false := by
      cases hcc : (s.activeA && s.activeB)
      · rfl
      · exact absurd hcc hact
    rw [reconcile_databases_degraded s goodT goodT false false hact2]
    dsimp only
    have hstable := reconcile_databases_stable (sync_sequences s false false)
      (fun h1 h2 => by
        obtain ⟨haA, haB, _, _, _, _⟩ := sync_sequences_rows s false false
        rw [haA] at h1
        rw [haB] at h2
        rw [h1, h2] at hact2
        exact absurd hact2 (by decide))
      (fun h1 h2 => by
        obtain ⟨haA, haB, _, _, _, _⟩ := sync_sequences_rows s false false
        rw [haA] at h1
        rw [haB] at h2
        rw [h1, h2] at hact2
        exact absurd hact2 (by decide))
      (sync_sequences_idem s)
    rw [hstable]
    exact ⟨rfl, rfl, rfl⟩

end PhotoDB

namespace PhotoDB

theorem lowerName_append (s t : FName) :
    lowerName (s ++ t) = lowerName s ++ lowerName t :=
  List.map_append _ s t

theorem lowerName_dropRightN (s : FName) (n : Nat) :
    lowerName (dropRightN s n) = dropRightN (lowerName s) n := by
  unfold lowerName dropRightN
  rw [List.map_take, List.length_map]

theorem endsWithL_append (x s : FName) : endsWithL (x ++ s) s = true := by
  unfold endsWithL
  rw [List.length_append, Nat.add_sub_cancel, List.drop_left]
  simp [Nat.le_add_left]

theorem dropRightN_append (x s : FName) : dropRightN (x ++ s) s.length = x := by
  unfold dropRightN
  rw [List.length_append, Nat.add_sub_cancel, List.take_left]

theorem endsWithL_decomp {l s : FName} (h : endsWithL l s = true) :
    dropRightN l s.length ++ s = l := by
  unfold endsWithL at h
  rw [Bool.and_eq_true, decide_eq_true_eq, decide_eq_true_eq] at h
  obtain ⟨hlen, hdrop⟩ := h
  unfold dropRightN
  have hsplit := List.take_append_drop (l.length - s.length) l
  rw [hdrop] at hsplit
  exact hsplit

theorem lower_jpg : lowerName (mkStr ".jpg") = mkStr ".jpg" := by decide

theorem lower_jpeg : lowerName (mkStr ".jpeg") = mkStr ".jpeg" := by decide

theorem lower_JPG : lowerName (mkStr ".JPG") = mkStr ".jpg" := by decide

theorem lower_JPEG : lowerName (mkStr ".JPEG") = mkStr ".jpeg" := by decide

theorem endsWith_decomp_jpg {l : FName} (h : endsWithL l (mkStr ".jpg") = true) :
    dropRightN l 4 ++ mkStr ".jpg" = l := by
  have h4 : (4 : Nat) = (mkStr ".jpg").length := by decide
  rw [h4]
  exact endsWithL_decomp h

theorem endsWith_decomp_jpeg {l : FName} (h : endsWithL l (mkStr ".jpeg") = true) :
    dropRightN l 5 ++ mkStr ".jpeg" = l := by
  have h5 : (5 : Nat) = (mkStr ".jpeg").length := by decide
  rw [h5]
  exact endsWithL_decomp h

theorem dropRight4_append_jpg (x : FName) : dropRightN (x ++ mkStr ".jpg") 4 = x := by
  have h4 : (4 : Nat) = (mkStr ".jpg").length := by decide
  rw [h4]
  exact dropRightN_append x _

theorem sqlLowerMatch_of_mem {tbl : List FName} {F c : FName}
    (hF : F ∈ tbl) (h : lowerName c = lowerName F) : sqlLowerMatch tbl c = true := by
  unfold sqlLowerMatch
  rw [List.any_eq_true]
  exact ⟨F, hF, decide_eq_true h.symm⟩

/-- The heart of the fuzzy-match rule: whenever two names agree up to case
and the `.jpg`/`.jpeg` alias, some candidate generated for the queried
name matches the stored name under `LOWER(...) = LOWER(...)`. -/
theorem exists_candidate {G F : FName} (h : normName G = normName F) :
    ∃ c ∈ candidateNames G, lowerName c = lowerName F := by
  unfold normName at h
  unfold candidateNames
  by_cases hg1 : endsWithL (lowerName G) (mkStr ".jpg") = true
  · rw [if_pos hg1]
    rw [if_pos hg1] at h
    by_cases hf1 : endsWithL (lowerName F) (mkStr ".jpg") = true
    · rw [if_pos hf1] at h
      exact ⟨G, by simp, h⟩
    · rw [if_neg hf1] at h
      by_cases hf2 : endsWithL (lowerName F) (mkStr ".jpeg") = true
      · rw [if_pos hf2] at h
        refine ⟨dropRightN G 4 ++ mkStr ".jpeg", by simp, ?_⟩
        rw [lowerName_append, lowerName_dropRightN, lower_jpeg, h, dropRight4_append_jpg]
        exact endsWith_decomp_jpeg hf2
      · rw [if_neg hf2] at h
        rw [h] at hg1
        exact absurd hg1 hf1
  · rw [if_neg hg1]
    rw [if_neg hg1] at h
    by_cases hg2 : endsWithL (lowerName G) (mkStr ".jpeg") = true
    · rw [if_pos hg2]
      rw [if_pos hg2] at h
      by_cases hf1 : endsWithL (lowerName F) (mkStr ".jpg") = true
      · rw [if_pos hf1] at h
        refine ⟨dropRightN G 5 ++ mkStr ".jpg", by simp, ?_⟩
        rw [lowerName_append, lowerName_dropRightN, lower_jpg]
        exact h
      · rw [if_neg hf1] at h
        by_cases hf2 : endsWithL (lowerName F) (mkStr ".jpeg") = true
        · rw [if_pos hf2] at h
          have hcanc : dropRightN (lowerName G) 5 = dropRightN (lowerName F) 5 :=
            List.append_cancel_right h
          refine ⟨G, by simp, ?_⟩
          rw [← endsWith_decomp_jpeg hg2, ← endsWith_decomp_jpeg hf2, hcanc]
        · rw [if_neg hf2] at h
          have hends : endsWithL (lowerName F) (mkStr ".jpg") = true := by
            rw [← h]
            exact endsWithL_append _ _
          exact absurd hends hf1
    · rw [if_neg hg2]
      rw [if_neg hg2] at h
      by_cases hf1 : endsWithL (lowerName F) (mkStr ".jpg") = true
      · rw [if_pos hf1] at h
        rw [← h] at hf1
        exact absurd hf1 hg1
      · rw [if_neg hf1] at h
        by_cases hf2 : endsWithL (lowerName F) (mkStr ".jpeg") = true
        · rw [if_pos hf2] at h
          have hends : endsWithL (lowerName G) (mkStr ".jpg") = true := by
            rw [h]
            exact endsWithL_append _ _
          exact absurd hends hg1
        · rw [if_neg hf2] at h
          exact ⟨G, by simp, h⟩

/-- C7: `file_exists_by_name` matches case-insensitively and across the
`.jpg`/`.jpeg` alias — for every store whose consulted `media_library`
(the cache when present and healthy, otherwise the providers) contains a
record with filename `F`, the lookup for any `G` that agrees with `F` up
to letter case and the `.jpg`/`.jpeg` extension alias returns true. -/
theorem c7_fuzzy_match (st : FStore) (G F : FName)
    (hmem : F ∈ consultedNames st) (h : normName G = normName F) :
    (file_exists_by_name st G).1 = true := by
  obtain ⟨c, hc, hlc⟩ := exists_candidate h
  unfold file_exists_by_name
  unfold consultedNames at hmem
  by_cases hcp : (st.cachePresent && !st.cacheQueryFails) = true
  · rw [if_pos hcp] at hmem
    rw [if_pos hcp]
    show (candidateNames G).any (sqlLowerMatch st.cacheNames) = true
    rw [List.any_eq_true]
    exact ⟨c, hc, sqlLowerMatch_of_mem hmem hlc⟩
  · rw [if_neg hcp] at hmem
    rw [if_neg hcp]
    show (candidateNames G).any (sqlLowerMatch st.provNames) = true
    rw [List.any_eq_true]
    exact ⟨c, hc, sqlLowerMatch_of_mem hmem hlc⟩

/-- Cache holding `IMG_1.JPG`, providers empty. -/
def stCacheIMG : FStore := ⟨true, false, [mkStr "IMG_1.JPG"], []⟩

/-- C7 witness: the spec's P5 instance — after inserting `IMG_1.JPG`,
`existsByName("img_1.jpeg")` returns true. -/
theorem c7_fuzzy_match_witness :
    (file_exists_by_name stCacheIMG (mkStr "img_1.jpeg")).1 = true :=
  c7_fuzzy_match stCacheIMG (mkStr "img_1.jpeg") (mkStr "IMG_1.JPG") (by decide) (by decide)

/-- C10: when the cache handle exists and its query succeeds, the result is
decided by the cache alone — the provider loop never runs, the result is
exactly the candidate-loop outcome over the cached rows, and if no
candidate matches a cached row the lookup reports false even when the
record exists on the providers; the provider-side lookup runs only when
the cache handle is absent or the cache query raises. -/
theorem c10_cache_decides (st : FStore) (f : FName) :
    (st.cachePresent = true → st.cacheQueryFails = false →
      ((file_exists_by_name st f).2 = false ∧
        (file_exists_by_name st f).1 = (candidateNames f).any (sqlLowerMatch st.cacheNames) ∧
        ((∀ c ∈ candidateNames f, sqlLowerMatch st.cacheNames c = false) →
          (file_exists_by_name st f).1 = false))) ∧
    ((file_exists_by_name st f).2 = true →
      st.cachePresent = false ∨ st.cacheQueryFails = true) := by
  unfold file_exists_by_name
  by_cases hcp : (st.cachePresent && !st.cacheQueryFails) = true
  · rw [if_pos hcp]
    constructor
    · intro _ _
      refine ⟨rfl, rfl, ?_⟩
      intro hall
      show (candidateNames f).any (sqlLowerMatch st.cacheNames) = false
      cases hany : (candidateNames f).any (sqlLowerMatch st.cacheNames)
      · rfl
      · obtain ⟨c, hc1, hc2⟩ := List.any_eq_true.1 hany
        rw [hall c hc1] at hc2
        exact Bool.noConfusion hc2
    · intro hq
      exact Bool.noConfusion hq
  · rw [if_neg hcp]
    constructor
    · intro h1 h2
      exfalso
      apply hcp
      rw [h1, h2]
      rfl
    · intro _
      cases hc1 : st.cachePresent
      · exact Or.inl rfl
      · cases hc2 : st.cacheQueryFails
        · exfalso
          apply hcp
          rw [hc1, hc2]
          rfl
        · exact Or.inr rfl

/-- Healthy empty cache; providers hold `a.jpg`. -/
def stOnlyProv : FStore := ⟨true, false, [], [mkStr "a.jpg"]⟩

/-- C10 witness: a record present only on the providers while the cache is
healthy but empty is reported as non-existent, without querying any
provider. -/
theorem c10_cache_decides_witness :
    (file_exists_by_name stOnlyProv (mkStr "a.jpg")).2 = false ∧
      (file_exists_by_name stOnlyProv (mkStr "a.jpg")).1 = false := by
  have h := c10_cache_decides stOnlyProv (mkStr "a.jpg")
  exact ⟨(h.1 rfl rfl).1, (h.1 rfl rfl).2.2 (by decide)⟩

end PhotoDB
